import Mathlib

/-!
# PicoTun tunnel data plane — verification of spec claims

A shallow embedding of the PicoTun v2.5 data plane (package `httpmux`):
the framed AES-256-GCM crypto channel with its padding / stealth-padding /
burst-split layers, the stream-type routing, the target-header codec, the
session-pool pick, the mimicry-handshake wrapper, the decoy responder and
the per-session stream counter.  Byte strings are `List Nat` (each element
a byte value; encoders truncate with `% 256` exactly where the Go code
casts to fixed-width integers).  Randomness (`crypto/rand` draws) is made
explicit: functions take the drawn values as parameters, with the same
clamping (`secureRandInt`) the source applies.
-/

namespace PicoTun

/-- Big-endian 2-byte encoding, as `binary.BigEndian.PutUint16` applied to
`uint16(n)`: the cast truncates modulo 2^16, which the byte-wise `% 256`
reproduces. -/
def u16be (n : Nat) : List Nat := [n / 256 % 256, n % 256]

/-- Big-endian 4-byte encoding (`binary.BigEndian.PutUint32` of `uint32(n)`). -/
def u32be (n : Nat) : List Nat :=
  [n / 2 ^ 24 % 256, n / 2 ^ 16 % 256, n / 2 ^ 8 % 256, n % 256]

/-- `binary.BigEndian.Uint16` on the first two bytes of a buffer. -/
def beUint16 (l : List Nat) : Nat := l.getD 0 0 % 256 * 256 + l.getD 1 0 % 256

/-- `binary.BigEndian.Uint32` on the first four bytes of a buffer. -/
def beUint32 (l : List Nat) : Nat :=
  ((l.getD 0 0 % 256 * 256 + l.getD 1 0 % 256) * 256 + l.getD 2 0 % 256) * 256
    + l.getD 3 0 % 256

/-- `secureRandInt n` from `conn.go`: `0` when `n ≤ 0`, otherwise a value in
`[0, n)`; the drawn entropy is the explicit parameter `r`, reduced mod `n`
so every supplied `r` yields a legal draw. -/
def secureRandInt (n : Int) (r : Nat) : Int := if n ≤ 0 then 0 else (r : Int) % n

/-- Exactly `n` bytes taken from the byte source `src`, zero-filled when the
source is short: random fill bytes (`rand.Read`) made explicit. -/
def takeFill (src : List Nat) (n : Nat) : List Nat :=
  (src ++ List.replicate n 0).take n

/-- `ObfsConfig` — fields the framing layer consumes. -/
structure ObfsConfig where
  enabled : Bool
  minPadding : Int
  maxPadding : Int
  minDelayMS : Int
  maxDelayMS : Int
deriving DecidableEq

instance : Inhabited ObfsConfig := ⟨⟨false, 0, 0, 0, 0⟩⟩

/-- `StealthConfig` — fields the framing layer consumes. -/
structure StealthConfig where
  randomPadding : Bool
  minPadding : Int
  maxPadding : Int
  burstSplit : Bool
  maxBurstSize : Int
deriving DecidableEq

instance : Inhabited StealthConfig := ⟨⟨false, 0, 0, false, 0⟩⟩

/-- `addPadding` (conn.go): prefix `uint16_be len(data)`, suffix `padLen`
random bytes where `padLen = MinPadding (+ secureRandInt diff if diff > 0)`.
`r` is the random draw, `padSrc` the random fill bytes. -/
def addPadding (data : List Nat) (obfs : ObfsConfig) (r : Nat) (padSrc : List Nat) :
    List Nat :=
  let diff := obfs.maxPadding - obfs.minPadding
  let padLen := obfs.minPadding + (if diff > 0 then secureRandInt diff r else 0)
  u16be data.length ++ data ++ takeFill padSrc padLen.toNat

/-- `removePadding` (conn.go): `nil` (here `none`) when fewer than 2 bytes or
the prefix length overruns the buffer; otherwise the prefixed slice. -/
def removePadding (data : List Nat) : Option (List Nat) :=
  if data.length < 2 then none
  else
    let origLen := beUint16 data
    if origLen + 2 > data.length then none
    else some ((data.drop 2).take origLen)

/-- `addStealthPadding` (conn.go): same two-byte prefix format;
`padLen = MinPadding + secureRandInt (MaxPadding - MinPadding + 1)`. -/
def addStealthPadding (data : List Nat) (s : StealthConfig) (r : Nat)
    (padSrc : List Nat) : List Nat :=
  let padLen := s.minPadding + secureRandInt (s.maxPadding - s.minPadding + 1) r
  u16be data.length ++ data ++ takeFill padSrc padLen.toNat

/-- `removeStealthPadding` (conn.go): like `removePadding` but additionally
rejects a zero prefix. -/
def removeStealthPadding (data : List Nat) : Option (List Nat) :=
  if data.length < 2 then none
  else
    let origLen := beUint16 data
    if origLen + 2 > data.length ∨ origLen = 0 then none
    else some ((data.drop 2).take origLen)

/-- An AEAD in the interface shape of Go's `cipher.AEAD` as `EncryptedConn`
uses it (`Seal(nil, nonce, payload, nil)` / `Open(nil, nonce, ct, nil)`).
The GCM instance itself lives in the Go standard library, so the channel is
parameterised over any such scheme; theorems assume the standard AEAD laws
(open inverts seal, ciphertext = plaintext + 16-byte tag, 12-byte nonce). -/
structure AEAD where
  nonceSize : Nat
  sealAEAD : List Nat → List Nat → List Nat
  openAEAD : List Nat → List Nat → Option (List Nat)

/-- `EncryptedConn` configuration state: `gcm` is `none` when the PSK is
empty (unencrypted mode), `obfs`/`stealth` mirror the nilable pointers. -/
structure EncryptedConn where
  gcm : Option AEAD
  obfs : Option ObfsConfig
  stealth : Option StealthConfig

/-- `c.obfs != nil && c.obfs.Enabled`. -/
def obfsOn (c : EncryptedConn) : Bool :=
  match c.obfs with
  | some o => o.enabled
  | none => false

/-- `c.stealth != nil && c.stealth.RandomPadding`. -/
def stealthPadOn (c : EncryptedConn) : Bool :=
  match c.stealth with
  | some s => s.randomPadding
  | none => false

/-- Step ① of `writePacket` (conn.go): the padded payload. Obfuscation
padding when enabled; else stealth padding only for `len(data) > 4`;
else the raw bytes. -/
def mkPayload (c : EncryptedConn) (data : List Nat) (r : Nat) (padSrc : List Nat) :
    List Nat :=
  if obfsOn c then addPadding data (c.obfs.getD default) r padSrc
  else if stealthPadOn c && decide (data.length > 4) then
    addStealthPadding data (c.stealth.getD default) r padSrc
  else data

/-- Steps ①–② of `writePacket` (conn.go): the bytes emitted on the wire for
one packet.  Encrypted mode: `uint32_be (|nonce|+|ct|) ∥ nonce ∥ ct`;
unencrypted mode: `uint32_be |payload| ∥ payload`.  `nonceSrc` supplies the
random nonce bytes. -/
def writePacket (c : EncryptedConn) (data : List Nat) (r : Nat)
    (padSrc nonceSrc : List Nat) : List Nat :=
  let payload := mkPayload c data r padSrc
  match c.gcm with
  | some a =>
    let nonce := takeFill nonceSrc a.nonceSize
    let ct := a.sealAEAD nonce payload
    u32be (a.nonceSize + ct.length) ++ nonce ++ ct
  | none => u32be payload.length ++ payload

/-- The padding-removal step of `Read` (conn.go): obfuscation mode fails hard
on a bad prefix; stealth mode falls back to the raw plaintext when the strip
fails; otherwise the plaintext passes through. -/
def afterPad (c : EncryptedConn) (plaintext : List Nat) : Option (List Nat) :=
  if obfsOn c then removePadding plaintext
  else if stealthPadOn c then
    match removeStealthPadding plaintext with
    | some stripped => some stripped
    | none => some plaintext
  else some plaintext

/-- `Read` (conn.go) applied to a buffered wire: parse the 4-byte length,
reject `0` or `> 16 MiB`, take the packet, decrypt when a key is set, strip
padding.  Returns the delivered plaintext and the unconsumed wire bytes;
`none` is any of the fatal error returns. -/
def readPacket (c : EncryptedConn) (wire : List Nat) : Option (List Nat × List Nat) :=
  if wire.length < 4 then none
  else
    let pktLen := beUint32 (wire.take 4)
    if pktLen = 0 ∨ pktLen > 16 * 2 ^ 20 then none
    else
      let rest := wire.drop 4
      if rest.length < pktLen then none
      else
        let pkt := rest.take pktLen
        let rem := rest.drop pktLen
        match c.gcm with
        | some a =>
          if pktLen < a.nonceSize then none
          else
            match a.openAEAD (pkt.take a.nonceSize) (pkt.drop a.nonceSize) with
            | none => none
            | some plaintext => (afterPad c plaintext).map fun q => (q, rem)
        | none => (afterPad c pkt).map fun q => (q, rem)

/-! ## Codec lemmas -/

lemma takeFill_length (src : List Nat) (n : Nat) : (takeFill src n).length = n := by
  simp [takeFill, List.length_take]

lemma beUint16_u16be (n : Nat) (rest : List Nat) :
    beUint16 (u16be n ++ rest) = n % 65536 := by
  simp only [u16be, List.cons_append, List.nil_append, beUint16, List.getD_cons_zero,
    List.getD_cons_succ]
  omega

lemma beUint32_u32be (n : Nat) (rest : List Nat) :
    beUint32 (u32be n ++ rest) = n % 2 ^ 32 := by
  simp only [u32be, List.cons_append, List.nil_append, beUint32, List.getD_cons_zero,
    List.getD_cons_succ]
  omega

lemma u16be_length (n : Nat) : (u16be n).length = 2 := rfl

lemma u32be_length (n : Nat) : (u32be n).length = 4 := rfl

/-- A correctly prefixed buffer strips back to its body (`removePadding`),
whenever the body fits the 2-byte prefix. -/
lemma removePadding_prefixed (p pad : List Nat) (h : p.length ≤ 65535) :
    removePadding (u16be p.length ++ (p ++ pad)) = some p := by
  have hlen : (u16be p.length ++ (p ++ pad)).length = 2 + (p.length + pad.length) := by
    simp [u16be]; omega
  rw [removePadding]
  rw [if_neg (by omega : ¬(u16be p.length ++ (p ++ pad)).length < 2)]
  rw [beUint16_u16be, Nat.mod_eq_of_lt (by omega)]
  rw [if_neg (by omega : ¬p.length + 2 > (u16be p.length ++ (p ++ pad)).length)]
  rw [List.drop_left' (u16be_length p.length), List.take_left]

/-- Same for `removeStealthPadding`, which additionally needs a nonzero body. -/
lemma removeStealthPadding_prefixed (p pad : List Nat) (h0 : 1 ≤ p.length)
    (h : p.length ≤ 65535) :
    removeStealthPadding (u16be p.length ++ (p ++ pad)) = some p := by
  have hlen : (u16be p.length ++ (p ++ pad)).length = 2 + (p.length + pad.length) := by
    simp [u16be]; omega
  rw [removeStealthPadding]
  rw [if_neg (by omega : ¬(u16be p.length ++ (p ++ pad)).length < 2)]
  rw [beUint16_u16be, Nat.mod_eq_of_lt (by omega)]
  rw [if_neg (by omega :
    ¬(p.length + 2 > (u16be p.length ++ (p ++ pad)).length ∨ p.length = 0))]
  rw [List.drop_left' (u16be_length p.length), List.take_left]

/-! ## Frame round trip (Claims C1, C3, C6, C9) -/

/-- Parsing one exactly framed packet: the length prefix is consumed, the
body is split off, the rest of the wire is left over. -/
lemma readPacket_exact (c : EncryptedConn) (body extra : List Nat)
    (h1 : 1 ≤ body.length) (h2 : body.length ≤ 16 * 2 ^ 20) :
    readPacket c (u32be body.length ++ body ++ extra) =
      (match c.gcm with
       | some a =>
         if body.length < a.nonceSize then none
         else
           match a.openAEAD (body.take a.nonceSize) (body.drop a.nonceSize) with
           | none => none
           | some plaintext => (afterPad c plaintext).map fun q => (q, extra)
       | none => (afterPad c body).map fun q => (q, extra)) := by
  rw [List.append_assoc, readPacket]
  have hlen : (u32be body.length ++ (body ++ extra)).length
      = 4 + (body.length + extra.length) := by simp [u32be]; omega
  rw [if_neg (by omega : ¬(u32be body.length ++ (body ++ extra)).length < 4)]
  rw [List.take_left' (u32be_length body.length), List.drop_left' (u32be_length body.length)]
  have hmod : beUint32 (u32be body.length) = body.length := by
    have := beUint32_u32be body.length []
    rw [List.append_nil] at this
    rw [this, Nat.mod_eq_of_lt (by omega)]
  rw [hmod]
  rw [if_neg (by omega : ¬(body.length = 0 ∨ body.length > 16 * 2 ^ 20))]
  rw [if_neg (by simp : ¬(body ++ extra).length < body.length)]
  rw [List.take_left, List.drop_left]

/-- The wire written by `writePacket` reads back as the unpadded form of the
padded payload, for any AEAD satisfying the GCM laws, leaving trailing wire
bytes untouched. -/
lemma readPacket_writePacket (c : EncryptedConn) (p : List Nat) (r : Nat)
    (padSrc nonceSrc extra : List Nat)
    (hA : ∀ a, c.gcm = some a → a.nonceSize = 12 ∧
        (∀ nn pl, (a.sealAEAD nn pl).length = pl.length + 16) ∧
        (∀ nn pl, a.openAEAD nn (a.sealAEAD nn pl) = some pl))
    (hNE : c.gcm = none → 1 ≤ (mkPayload c p r padSrc).length)
    (hB : (mkPayload c p r padSrc).length + 28 ≤ 16 * 2 ^ 20) :
    readPacket c (writePacket c p r padSrc nonceSrc ++ extra)
      = (afterPad c (mkPayload c p r padSrc)).map fun q => (q, extra) := by
  cases hg : c.gcm with
  | none =>
    have h1 : 1 ≤ (mkPayload c p r padSrc).length := hNE hg
    have hw : writePacket c p r padSrc nonceSrc
        = u32be (mkPayload c p r padSrc).length ++ mkPayload c p r padSrc := by
      simp only [writePacket, hg]
    rw [hw, readPacket_exact c (mkPayload c p r padSrc) extra h1 (by omega)]
    simp only [hg]
  | some a =>
    obtain ⟨hns, hsl, hro⟩ := hA a hg
    simp only [writePacket, hg]
    generalize hpay : mkPayload c p r padSrc = payload at hB ⊢
    generalize hnonce : takeFill nonceSrc a.nonceSize = nonce
    generalize hct : a.sealAEAD nonce payload = ct
    have hnl : nonce.length = 12 := by rw [← hnonce, takeFill_length, hns]
    have hctl : ct.length = payload.length + 16 := by rw [← hct]; exact hsl nonce payload
    have hL : a.nonceSize + ct.length = (nonce ++ ct).length := by
      rw [List.length_append, hnl, hns]
    rw [hL, List.append_assoc (u32be (nonce ++ ct).length) nonce ct]
    rw [readPacket_exact c (nonce ++ ct) extra
      (by simp [List.length_append]; omega)
      (by simp only [List.length_append, hnl, hctl]; omega)]
    simp only [hg]
    rw [if_neg (by simp only [List.length_append, hnl, hns]; omega)]
    rw [List.take_left' (by rw [hnl, hns]), List.drop_left' (by rw [hnl, hns])]
    rw [← hct, hro nonce payload]

/-- The conditions under which the padding layer round-trips: obfuscation
padding needs the body to fit the 2-byte prefix; stealth padding needs
either a body long enough to be prefixed (and fitting the prefix) or a
short body that the read-side strip provably rejects; no padding always
round-trips. -/
def roundTripOK (c : EncryptedConn) (p : List Nat) : Prop :=
  (obfsOn c = true ∧ p.length ≤ 65535)
  ∨ (obfsOn c = false ∧ stealthPadOn c = true ∧
      ((4 < p.length ∧ p.length ≤ 65535) ∨ (p.length ≤ 4 ∧ removeStealthPadding p = none)))
  ∨ (obfsOn c = false ∧ stealthPadOn c = false)

instance roundTripOKDec (c : EncryptedConn) (p : List Nat) : Decidable (roundTripOK c p) := by
  unfold roundTripOK
  infer_instance

lemma addPadding_shape (data : List Nat) (o : ObfsConfig) (r : Nat) (padSrc : List Nat) :
    ∃ pad, addPadding data o r padSrc = u16be data.length ++ (data ++ pad) := by
  simp only [addPadding]
  exact ⟨_, List.append_assoc _ _ _⟩

lemma addStealthPadding_shape (data : List Nat) (s : StealthConfig) (r : Nat)
    (padSrc : List Nat) :
    ∃ pad, addStealthPadding data s r padSrc = u16be data.length ++ (data ++ pad) := by
  simp only [addStealthPadding]
  exact ⟨_, List.append_assoc _ _ _⟩

lemma afterPad_mkPayload (c : EncryptedConn) (p : List Nat) (r : Nat) (padSrc : List Nat)
    (hOK : roundTripOK c p) :
    afterPad c (mkPayload c p r padSrc) = some p := by
  rcases hOK with ⟨hObfs, hLen⟩ | ⟨hObfs, hStealth, hcase⟩ | ⟨hObfs, hStealth⟩
  · obtain ⟨pad, hpad⟩ := addPadding_shape p (c.obfs.getD default) r padSrc
    have hmk : mkPayload c p r padSrc = u16be p.length ++ (p ++ pad) := by
      simp [mkPayload, hObfs, hpad]
    rw [hmk]
    simp [afterPad, hObfs, removePadding_prefixed p pad hLen]
  · rcases hcase with ⟨h4, hLen⟩ | ⟨h4, hNone⟩
    · obtain ⟨pad, hpad⟩ := addStealthPadding_shape p (c.stealth.getD default) r padSrc
      have hmk : mkPayload c p r padSrc = u16be p.length ++ (p ++ pad) := by
        simp [mkPayload, hObfs, hStealth, h4, hpad]
      rw [hmk]
      simp [afterPad, hObfs, hStealth,
        removeStealthPadding_prefixed p pad (by omega) hLen]
    · have hlt : ¬(4 < p.length) := by omega
      have hmk : mkPayload c p r padSrc = p := by
        simp [mkPayload, hObfs, hStealth, hlt]
      rw [hmk]
      simp [afterPad, hObfs, hStealth, hNone]
  · have hmk : mkPayload c p r padSrc = p := by
      simp [mkPayload, hObfs, hStealth]
    rw [hmk]
    simp [afterPad, hObfs, hStealth]

/-- Claim C1 (counterexample).  The round trip fails as universally stated:
(a) with stealth random padding and an empty PSK, the 3-byte plaintext
`[0x00, 0x01, 0x07]` (write side sends it raw, `len ≤ 4`) is mangled by the
read side's unconditional strip attempt into `[0x07]`; (b) with obfuscation
padding, a 65537-byte plaintext is truncated to 1 byte by the `uint16`
length prefix. -/
theorem frameRoundTrip_cex :
    (readPacket ⟨none, none, some ⟨true, 0, 0, false, 0⟩⟩
        (writePacket ⟨none, none, some ⟨true, 0, 0, false, 0⟩⟩ [0, 1, 7] 0 [] [])
      = some ([7], []) ∧ ([7] : List Nat) ≠ [0, 1, 7])
    ∧ (removePadding (addPadding (List.replicate 65537 3) ⟨true, 0, 0, 0, 0⟩ 0 [])
        = some [3] ∧ ([3] : List Nat) ≠ List.replicate 65537 3) := by
  refine ⟨⟨by decide, by decide⟩, ?_, ?_⟩
  · have hadd : addPadding (List.replicate 65537 3) ⟨true, 0, 0, 0, 0⟩ 0 []
        = u16be 65537 ++ List.replicate 65537 3 := by
      simp only [addPadding, List.length_replicate]
      norm_num [secureRandInt, takeFill]
    rw [hadd]
    have hlen : (u16be 65537 ++ List.replicate 65537 3).length = 65539 := by
      rw [List.length_append, List.length_replicate, u16be_length]
    rw [removePadding, if_neg (by omega)]
    rw [beUint16_u16be]
    rw [if_neg (by rw [hlen]; norm_num)]
    rw [List.drop_left' (u16be_length 65537)]
    norm_num [List.take_replicate]
  · intro h
    have h2 := congrArg List.length h
    rw [List.length_replicate, List.length_singleton] at h2
    omega
/-- Core round-trip fact shared by the framing claims: one `writePacket`
read back by an identically configured channel yields the plaintext. -/
lemma roundTrip_core (c : EncryptedConn) (p : List Nat) (r : Nat)
    (padSrc nonceSrc : List Nat)
    (hOK : roundTripOK c p)
    (hA : ∀ a, c.gcm = some a → a.nonceSize = 12 ∧
        (∀ nn pl, (a.sealAEAD nn pl).length = pl.length + 16) ∧
        (∀ nn pl, a.openAEAD nn (a.sealAEAD nn pl) = some pl))
    (hNE : c.gcm = none → 1 ≤ (mkPayload c p r padSrc).length)
    (hB : (mkPayload c p r padSrc).length + 28 ≤ 16 * 2 ^ 20) :
    readPacket c (writePacket c p r padSrc nonceSrc) = some (p, []) := by
  have h := readPacket_writePacket c p r padSrc nonceSrc [] hA hNE hB
  rw [List.append_nil] at h
  rw [h, afterPad_mkPayload c p r padSrc hOK]
  rfl

/-- Claim C1 (amended): writing `p` through the framed crypto channel and
reading it back with an identically configured channel yields exactly `p`,
for any AEAD obeying the GCM laws (or no key at all), provided the padding
mode round-trips the body (`roundTripOK`: obfuscation padding with
`|p| ≤ 65535`; stealth padding with `4 < |p| ≤ 65535`, or `|p| ≤ 4` with a
strip-proof body; or no padding), the framed payload is nonempty in
unencrypted mode, and the padded payload fits the 16 MiB frame bound. -/
theorem frameRoundTrip_amended (c : EncryptedConn) (p : List Nat) (r : Nat)
    (padSrc nonceSrc : List Nat)
    (hOK : roundTripOK c p)
    (hA : ∀ a, c.gcm = some a → a.nonceSize = 12 ∧
        (∀ nn pl, (a.sealAEAD nn pl).length = pl.length + 16) ∧
        (∀ nn pl, a.openAEAD nn (a.sealAEAD nn pl) = some pl))
    (hNE : c.gcm = none → 1 ≤ (mkPayload c p r padSrc).length)
    (hB : (mkPayload c p r padSrc).length + 28 ≤ 16 * 2 ^ 20) :
    readPacket c (writePacket c p r padSrc nonceSrc) = some (p, []) :=
  roundTrip_core c p r padSrc nonceSrc hOK hA hNE hB

/-- Witness for `frameRoundTrip_amended`: a concrete obfuscation-padded
round trip in unencrypted mode. -/
theorem frameRoundTrip_amended_witness :
    roundTripOK ⟨none, some ⟨true, 2, 2, 0, 0⟩, none⟩ [7, 8] ∧
    readPacket ⟨none, some ⟨true, 2, 2, 0, 0⟩, none⟩
      (writePacket ⟨none, some ⟨true, 2, 2, 0, 0⟩, none⟩ [7, 8] 0 [9, 9] [])
      = some ([7, 8], []) := by
  refine ⟨by decide, ?_⟩
  exact frameRoundTrip_amended _ _ _ _ _ (by decide) (fun a h => nomatch h)
    (fun _ => by decide) (by decide)

/-- Claim C3: the framed-channel reader rejects any packet whose 4-byte
big-endian advertised length is zero or exceeds 16 MiB; `Read` returns an
error (`none`) and delivers no payload bytes. -/
theorem readLengthBounds (c : EncryptedConn) (wire : List Nat)
    (h : beUint32 (wire.take 4) = 0 ∨ 16 * 2 ^ 20 < beUint32 (wire.take 4)) :
    readPacket c wire = none := by
  rw [readPacket]
  by_cases h4 : wire.length < 4
  · rw [if_pos h4]
  · rw [if_neg h4, if_pos h]

/-- Witness for `readLengthBounds`: an advertised length of `0xFFFFFFFF`. -/
theorem readLengthBounds_witness :
    (beUint32 ([255, 255, 255, 255].take 4) = 0
      ∨ 16 * 2 ^ 20 < beUint32 ([255, 255, 255, 255].take 4))
    ∧ readPacket ⟨none, none, none⟩ [255, 255, 255, 255] = none :=
  ⟨Or.inr (by decide),
    readLengthBounds ⟨none, none, none⟩ [255, 255, 255, 255] (Or.inr (by decide))⟩

/-! ## Target-header codec (Claim C4) -/

/-- Network kind returned by `splitTarget`. -/
inductive NetKind
  | tcp
  | udp
deriving DecidableEq

/-- The bytes of `"udp://"`. -/
def targetUDPPrefix : List Nat := [117, 100, 112, 58, 47, 47]

/-- The bytes of `"tcp://"`. -/
def targetTCPPrefix : List Nat := [116, 99, 112, 58, 47, 47]

/-- `splitTarget` (server.go): `udp://` selects UDP and is trimmed;
everything else is TCP, with a `tcp://` prefix trimmed when present. -/
def splitTarget (t : List Nat) : NetKind × List Nat :=
  if targetUDPPrefix.isPrefixOf t then (NetKind.udp, t.drop 6)
  else if targetTCPPrefix.isPrefixOf t then (NetKind.tcp, t.drop 6)
  else (NetKind.tcp, t)

/-- `sendTarget` (server.go): `uint16_be |t| ∥ t`. -/
def sendTarget (t : List Nat) : List Nat := u16be t.length ++ t

/-- The target-header read loop shared by `handleForwardStream` (server.go)
and `proxyReverseStream` (client.go): read a 2-byte length, reject `0` or
`> 4096` (closing the substream, here `none`), read that many bytes.
Returns the target and the remaining stream bytes. -/
def parseTargetHeader (input : List Nat) : Option (List Nat × List Nat) :=
  if input.length < 2 then none
  else
    let tLen := beUint16 input
    if tLen = 0 ∨ tLen > 4096 then none
    else
      if (input.drop 2).length < tLen then none
      else some ((input.drop 2).take tLen, (input.drop 2).drop tLen)

lemma parseTargetHeader_sendTarget (t extra : List Nat) (h1 : 1 ≤ t.length)
    (h2 : t.length ≤ 4096) :
    parseTargetHeader (sendTarget t ++ extra) = some (t, extra) := by
  rw [sendTarget, List.append_assoc, parseTargetHeader]
  have hlen : (u16be t.length ++ (t ++ extra)).length = 2 + (t.length + extra.length) := by
    simp [u16be]; omega
  rw [if_neg (by omega), beUint16_u16be, Nat.mod_eq_of_lt (by omega)]
  rw [if_neg (by omega)]
  rw [List.drop_left' (u16be_length t.length)]
  rw [if_neg (by simp [List.length_append])]
  rw [List.take_left, List.drop_left]

/-- Claim C4: the target-header codec round-trips every valid target
(1 ≤ |t| ≤ 4096), with `udp://` selecting UDP and every other form
selecting TCP; the receiver rejects advertised lengths 0 or above 4096. -/
theorem targetHeaderCodec (t extra : List Nat) (h1 : 1 ≤ t.length)
    (h2 : t.length ≤ 4096) :
    parseTargetHeader (sendTarget t ++ extra) = some (t, extra)
    ∧ (targetUDPPrefix.isPrefixOf t = true → splitTarget t = (NetKind.udp, t.drop 6))
    ∧ (targetUDPPrefix.isPrefixOf t = false → (splitTarget t).1 = NetKind.tcp)
    ∧ (∀ input : List Nat, beUint16 input = 0 ∨ beUint16 input > 4096 →
        parseTargetHeader input = none) := by
  refine ⟨parseTargetHeader_sendTarget t extra h1 h2, ?_, ?_, ?_⟩
  · intro h
    rw [splitTarget, if_pos h]
  · intro h
    rw [splitTarget, if_neg (by simp [h])]
    by_cases h3 : targetTCPPrefix.isPrefixOf t <;> simp [h3]
  · intro input h
    rw [parseTargetHeader]
    by_cases hl : input.length < 2
    · rw [if_pos hl]
    · rw [if_neg hl, if_pos h]

/-- Witness for `targetHeaderCodec`: the target `"udp://h"`. -/
theorem targetHeaderCodec_witness :
    parseTargetHeader (sendTarget [117, 100, 112, 58, 47, 47, 104] ++ [])
      = some ([117, 100, 112, 58, 47, 47, 104], [])
    ∧ splitTarget [117, 100, 112, 58, 47, 47, 104] = (NetKind.udp, [104]) := by
  obtain ⟨hp, hu, _, _⟩ :=
    targetHeaderCodec [117, 100, 112, 58, 47, 47, 104] [] (by decide) (by decide)
  exact ⟨hp, hu (by decide)⟩

/-! ## Stream-type routing (Claim C2) -/

/-- What becomes of an accepted substream, as a function of its bytes:
`dial net addr rest` means a target header was parsed and the peer dials
`addr` over `net` and relays `rest`; `drained` means drain-and-discard;
`closed` means the substream is closed without dialing. -/
inductive StreamOutcome
  | dial (net : NetKind) (addr : List Nat) (rest : List Nat)
  | drained
  | closed
deriving DecidableEq

/-- Target-header handling shared by `handleForwardStream` (server.go) and
`proxyReverseStream` (client.go): parse the header, then dial and relay;
a malformed header closes the substream. -/
def dialFromHeader (input : List Nat) : StreamOutcome :=
  match parseTargetHeader input with
  | none => StreamOutcome.closed
  | some (t, rest) => StreamOutcome.dial (splitTarget t).1 (splitTarget t).2 rest

/-- `handleStream` (server.go): the edge-side acceptor.  Only tag `0x01`
(`StreamTypeForward`) is dispatched to the target-dialing relay; every other
first byte falls into the `default` arm, which merely logs and returns
(the deferred `stream.Close()` closes the substream). -/
def handleStream (input : List Nat) : StreamOutcome :=
  match input with
  | [] => StreamOutcome.closed
  | b :: rest => if b = 1 then dialFromHeader rest else StreamOutcome.closed

/-- `handleLegacyStream` (client.go): the already-read first byte is taken
as the high byte of a 2-byte target length; a second byte is read, the
length validated, and on success the peer dials the parsed target. -/
def handleLegacyStream (firstByte : Nat) (input : List Nat) : StreamOutcome :=
  match input with
  | [] => StreamOutcome.closed
  | b2 :: rest =>
    let tLen := firstByte % 256 * 256 + b2 % 256
    if tLen = 0 ∨ tLen > 4096 then StreamOutcome.closed
    else
      if rest.length < tLen then StreamOutcome.closed
      else
        StreamOutcome.dial (splitTarget (rest.take tLen)).1
          (splitTarget (rest.take tLen)).2 (rest.drop tLen)

/-- `handleReverseStream` (client.go): the origin-side acceptor.  `0x02`
(`StreamTypeReverse`) relays, `0xFF` drains, anything else goes to the
legacy-compatibility path. -/
def handleReverseStream (input : List Nat) : StreamOutcome :=
  match input with
  | [] => StreamOutcome.closed
  | b :: rest =>
    if b = 2 then dialFromHeader rest
    else if b = 255 then StreamOutcome.drained
    else handleLegacyStream b rest

set_option maxRecDepth 4000 in
/-- Claim C2 (counterexample).  The uniform routing rule fails on both
sides: the edge acceptor closes a first-byte-`0x02` substream carrying a
perfectly valid target header (instead of dialing), and the origin acceptor
dials on the unknown first byte `0x01` via the legacy path (instead of
closing) when 2+256 header bytes follow. -/
theorem streamRouting_cex :
    handleStream [2, 0, 1, 120] = StreamOutcome.closed
    ∧ StreamOutcome.closed ≠ StreamOutcome.dial NetKind.tcp [120] []
    ∧ handleReverseStream (1 :: 0 :: List.replicate 256 97)
        = StreamOutcome.dial NetKind.tcp (List.replicate 256 97) [] := by
  refine ⟨by decide, by decide, by decide⟩

/-- Claim C2 (amended): routing is asymmetric.  The edge acceptor dials only
on first byte `0x01` and closes the substream on every other first byte
(including `0x02` and `0xFF`); the origin acceptor dials on `0x02`, drains
on `0xFF`, and hands any other first byte to the legacy fallback, which
reparses it as the high byte of a 2-byte target length and closes only when
that legacy header is invalid. -/
theorem streamRouting_amended (t extra : List Nat) (h1 : 1 ≤ t.length)
    (h2 : t.length ≤ 4096) :
    handleStream (1 :: (sendTarget t ++ extra))
      = StreamOutcome.dial (splitTarget t).1 (splitTarget t).2 extra
    ∧ (∀ b rest, b ≠ 1 → handleStream (b :: rest) = StreamOutcome.closed)
    ∧ handleStream [] = StreamOutcome.closed
    ∧ handleReverseStream (2 :: (sendTarget t ++ extra))
      = StreamOutcome.dial (splitTarget t).1 (splitTarget t).2 extra
    ∧ (∀ rest, handleReverseStream (255 :: rest) = StreamOutcome.drained)
    ∧ (∀ b rest, b ≠ 2 → b ≠ 255 →
        handleReverseStream (b :: rest) = handleLegacyStream b rest)
    ∧ (∀ b b2 (rest : List Nat),
        (b % 256 * 256 + b2 % 256 = 0 ∨ b % 256 * 256 + b2 % 256 > 4096
          ∨ rest.length < b % 256 * 256 + b2 % 256) →
        handleLegacyStream b (b2 :: rest) = StreamOutcome.closed) := by
  refine ⟨?_, ?_, rfl, ?_, ?_, ?_, ?_⟩
  · simp [handleStream, dialFromHeader, parseTargetHeader_sendTarget t extra h1 h2]
  · intro b rest hb
    simp only [handleStream]
    rw [if_neg hb]
  · simp [handleReverseStream, dialFromHeader, parseTargetHeader_sendTarget t extra h1 h2]
  · intro rest
    simp [handleReverseStream]
  · intro b rest hb hb'
    simp only [handleReverseStream]
    rw [if_neg hb, if_neg hb']
  · intro b b2 rest h
    simp only [handleLegacyStream]
    rcases h with h | h | h
    · rw [if_pos (Or.inl h)]
    · rw [if_pos (Or.inr h)]
    · by_cases hc : b % 256 * 256 + b2 % 256 = 0 ∨ b % 256 * 256 + b2 % 256 > 4096
      · rw [if_pos hc]
      · rw [if_neg hc, if_pos h]

/-- Witness for `streamRouting_amended`: a forward stream carrying the
1-byte target `"x"`. -/
theorem streamRouting_amended_witness :
    handleStream (1 :: (sendTarget [120] ++ []))
      = StreamOutcome.dial (splitTarget [120]).1 (splitTarget [120]).2 [] :=
  (streamRouting_amended [120] [] (by decide) (by decide)).1

/-! ## Stealth padding asymmetry (Claim C9) -/

/-- Claim C9: in stealth random-padding mode (obfuscation disabled), the
write side prefixes only plaintexts longer than 4 bytes, while the read
side attempts to strip a prefix from every packet and silently delivers
the raw payload when the strip fails (prefix zero, or prefix + 2 past the
end); a successful strip replaces the payload by the prefixed slice. -/
theorem stealthPaddingAsymmetry (c : EncryptedConn) (p : List Nat) (r : Nat)
    (padSrc : List Nat) (hObfs : obfsOn c = false) (hStealth : stealthPadOn c = true) :
    (p.length ≤ 4 → mkPayload c p r padSrc = p)
    ∧ (4 < p.length → ∃ pad, mkPayload c p r padSrc = u16be p.length ++ (p ++ pad))
    ∧ (∀ pl, removeStealthPadding pl = none → afterPad c pl = some pl)
    ∧ (∀ pl q, removeStealthPadding pl = some q → afterPad c pl = some q)
    ∧ (∀ pl : List Nat, 2 ≤ pl.length →
        beUint16 pl = 0 ∨ beUint16 pl + 2 > pl.length →
        removeStealthPadding pl = none) := by
  refine ⟨?_, ?_, ?_, ?_, ?_⟩
  · intro h4
    have hlt : ¬(4 < p.length) := by omega
    simp [mkPayload, hObfs, hStealth, hlt]
  · intro h4
    obtain ⟨pad, hpad⟩ := addStealthPadding_shape p (c.stealth.getD default) r padSrc
    exact ⟨pad, by simp [mkPayload, hObfs, hStealth, h4, hpad]⟩
  · intro pl h
    simp [afterPad, hObfs, hStealth, h]
  · intro pl q h
    simp [afterPad, hObfs, hStealth, h]
  · intro pl h2 h
    simp only [removeStealthPadding]
    rw [if_neg (by omega)]
    rcases h with h | h
    · rw [if_pos (Or.inr h)]
    · rw [if_pos (Or.inl h)]

/-- Witness for `stealthPaddingAsymmetry`: a 3-byte plaintext is sent raw. -/
theorem stealthPaddingAsymmetry_witness :
    mkPayload ⟨none, none, some ⟨true, 16, 128, false, 0⟩⟩ [1, 2, 3] 0 [] = [1, 2, 3] :=
  (stealthPaddingAsymmetry ⟨none, none, some ⟨true, 16, 128, false, 0⟩⟩ [1, 2, 3] 0 []
    (by decide) (by decide)).1 (by decide)

/-! ## Burst split (Claim C6) -/

/-- The chunk decomposition of `burstWrite` (conn.go): while bytes remain,
draw `chunkSize = 512 + secureRandInt(maxBurst - 512 + 1)` (with the
`maxBurst ≤ 0 → 4096` default), clamp it to the remainder, and emit the
chunk.  Written with explicit fuel; each iteration consumes at least one
byte, so `fuel = data.length` (see `burstChunks`) never runs out.  `rs`
supplies one random draw per chunk. -/
def burstChunksF (maxBurst : Int) : Nat → List Nat → List Nat → List (List Nat)
  | 0, _, _ => []
  | fuel + 1, rs, data =>
    if data.length = 0 then []
    else
      let mb := if maxBurst ≤ 0 then 4096 else maxBurst
      let cs := min (512 + (secureRandInt (mb - 512 + 1) (rs.headD 0)).toNat) data.length
      data.take cs :: burstChunksF maxBurst fuel rs.tail (data.drop cs)

/-- `burstWrite`'s chunk list for a whole write. -/
def burstChunks (maxBurst : Int) (rs data : List Nat) : List (List Nat) :=
  burstChunksF maxBurst data.length rs data

/-- The chunk lengths of `burstWrite`, as a function of the data length
only (chunking never inspects the bytes). -/
def burstLensF (maxBurst : Int) : Nat → List Nat → Nat → List Nat
  | 0, _, _ => []
  | fuel + 1, rs, len =>
    if len = 0 then []
    else
      let mb := if maxBurst ≤ 0 then 4096 else maxBurst
      let cs := min (512 + (secureRandInt (mb - 512 + 1) (rs.headD 0)).toNat) len
      cs :: burstLensF maxBurst fuel rs.tail (len - cs)

lemma burstChunksF_step (mb : Int) (k : Nat) (rs data : List Nat)
    (h : ¬data.length = 0) :
    burstChunksF mb (k + 1) rs data
      = data.take (min (512 + (secureRandInt
            ((if mb ≤ 0 then 4096 else mb) - 512 + 1) (rs.headD 0)).toNat) data.length)
        :: burstChunksF mb k rs.tail
            (data.drop (min (512 + (secureRandInt
              ((if mb ≤ 0 then 4096 else mb) - 512 + 1) (rs.headD 0)).toNat) data.length)) := by
  simp only [burstChunksF]
  rw [if_neg h]

lemma burstChunksF_nil (mb : Int) (fuel : Nat) (rs : List Nat) :
    burstChunksF mb fuel rs [] = [] := by
  cases fuel <;> simp [burstChunksF]

lemma burstChunksF_map_length (maxBurst : Int) :
    ∀ (fuel : Nat) (rs data : List Nat),
      (burstChunksF maxBurst fuel rs data).map List.length
        = burstLensF maxBurst fuel rs data.length := by
  intro fuel
  induction fuel with
  | zero => intro rs data; rfl
  | succ k ih =>
    intro rs data
    simp only [burstChunksF, burstLensF]
    by_cases h : data.length = 0
    · rw [if_pos h, if_pos h]; rfl
    · rw [if_neg h, if_neg h]
      simp only [List.map_cons]
      congr 1
      · rw [List.length_take]; omega
      · rw [ih, List.length_drop]

lemma burstChunksF_1024 :
    ∀ (fuel : Nat) (rs data : List Nat), data.length ≤ fuel →
      (burstChunksF 1024 fuel rs data).flatten = data
      ∧ (∀ ch ∈ burstChunksF 1024 fuel rs data, 1 ≤ ch.length ∧ ch.length ≤ 1024)
      ∧ (∀ ch ∈ (burstChunksF 1024 fuel rs data).dropLast, 512 ≤ ch.length) := by
  intro fuel
  induction fuel with
  | zero =>
    intro rs data hle
    have hnil : data = [] := List.eq_nil_of_length_eq_zero (by omega)
    subst hnil
    simp [burstChunksF]
  | succ k ih =>
    intro rs data hle
    by_cases h0 : data.length = 0
    · have hnil : data = [] := List.eq_nil_of_length_eq_zero h0
      subst hnil
      simp [burstChunksF]
    · rw [burstChunksF_step 1024 k rs data h0]
      have hmb : (if (1024 : Int) ≤ 0 then 4096 else (1024 : Int)) = 1024 := by norm_num
      rw [hmb]
      have hx : (secureRandInt (1024 - 512 + 1) (rs.headD 0)).toNat ≤ 512 := by
        simp only [secureRandInt]
        norm_num
        have h1 : ((rs.headD 0 : Int) % 513) < 513 :=
          Int.emod_lt_of_pos _ (by norm_num)
        omega
      set cs := min (512 + (secureRandInt (1024 - 512 + 1) (rs.headD 0)).toNat)
        data.length with hcs
      have hcs1 : 1 ≤ cs := by omega
      have hcsle : cs ≤ data.length := by omega
      have hcsub : cs ≤ 1024 := by omega
      have htkl : (data.take cs).length = cs := by rw [List.length_take]; omega
      obtain ⟨ihj, ihsz, ihdl⟩ := ih rs.tail (data.drop cs)
        (by rw [List.length_drop]; omega)
      refine ⟨?_, ?_, ?_⟩
      · rw [List.flatten_cons, ihj, List.take_append_drop]
      · intro ch hch
        rcases List.mem_cons.mp hch with hh | ht
        · subst hh
          omega
        · exact ihsz ch ht
      · rcases hrest : burstChunksF 1024 k rs.tail (data.drop cs) with _ | ⟨c0, cs0⟩
        · simp
        · rw [← hrest]
          have hne : burstChunksF 1024 k rs.tail (data.drop cs) ≠ [] := by
            rw [hrest]; exact List.cons_ne_nil c0 cs0
          have hdropne : data.drop cs ≠ [] := by
            intro hd
            rw [hd, burstChunksF_nil] at hne
            exact hne rfl
          have hlt : cs < data.length := by
            by_contra hcon
            have : data.drop cs = [] := List.drop_eq_nil_of_le (by omega)
            exact hdropne this
          have hfull : cs = 512 + (secureRandInt (1024 - 512 + 1) (rs.headD 0)).toNat := by
            omega
          rw [List.dropLast_cons_of_ne_nil hne]
          intro ch hch
          rcases List.mem_cons.mp hch with hh | ht
          · subst hh
            omega
          · exact ihdl ch ht

/-- Claim C6 (counterexample): with all random draws 0, a 5000-byte write
splits into ten packets whose plaintext sizes are nine 512s and one 392 —
the final packet carries fewer than 512 bytes, contradicting "each carrying
512–1024 plaintext bytes". -/
theorem burstSplit_cex :
    (burstChunks 1024 (List.replicate 10 0) (List.replicate 5000 0)).map List.length
      = [512, 512, 512, 512, 512, 512, 512, 512, 512, 392]
    ∧ (392 : Nat) < 512 := by
  constructor
  · rw [burstChunks, burstChunksF_map_length, List.length_replicate]
    decide
  · decide

/-- Claim C6 (amended): with burst split at `max_burst_size = 1024` and no
padding, a 5000-byte write is emitted as between 5 and 10 packets whose
concatenation is exactly the original bytes in order; every packet except
possibly the last carries 512–1024 plaintext bytes, the last carries
1–1024 (it may fall below 512), and each packet individually round-trips
through the framed channel, so the receiver reads exactly the 5000 bytes. -/
theorem burstSplit_amended (rs data : List Nat) (h : data.length = 5000) :
    5 ≤ (burstChunks 1024 rs data).length
    ∧ (burstChunks 1024 rs data).length ≤ 10
    ∧ (burstChunks 1024 rs data).flatten = data
    ∧ (∀ ch ∈ burstChunks 1024 rs data, 1 ≤ ch.length ∧ ch.length ≤ 1024)
    ∧ (∀ ch ∈ (burstChunks 1024 rs data).dropLast, 512 ≤ ch.length)
    ∧ (∀ ch ∈ burstChunks 1024 rs data, ∀ (c : EncryptedConn) (r : Nat)
        (padSrc nonceSrc : List Nat),
        obfsOn c = false → stealthPadOn c = false →
        (∀ a, c.gcm = some a → a.nonceSize = 12 ∧
            (∀ nn pl, (a.sealAEAD nn pl).length = pl.length + 16) ∧
            (∀ nn pl, a.openAEAD nn (a.sealAEAD nn pl) = some pl)) →
        readPacket c (writePacket c ch r padSrc nonceSrc) = some (ch, [])) := by
  obtain ⟨hflat, hsz, hdl⟩ :=
    burstChunksF_1024 data.length rs data (le_refl _)
  rw [burstChunks]
  have hsum : ((burstChunksF 1024 data.length rs data).map List.length).sum = 5000 := by
    rw [← List.length_flatten, hflat, h]
  have hne : burstChunksF 1024 data.length rs data ≠ [] := by
    intro hnil
    rw [hnil] at hflat
    rw [← hflat] at h
    simp at h
  have hub : ∀ x ∈ (burstChunksF 1024 data.length rs data).map List.length, x ≤ 1024 := by
    intro x hx
    obtain ⟨ch, hch, hchx⟩ := List.mem_map.mp hx
    rw [← hchx]
    exact (hsz ch hch).2
  have hk1 : 5000 ≤ (burstChunksF 1024 data.length rs data).length * 1024 := by
    have := List.sum_le_card_nsmul
      ((burstChunksF 1024 data.length rs data).map List.length) 1024 hub
    rw [hsum] at this
    simpa [smul_eq_mul, List.length_map] using this
  have hsplit := List.dropLast_append_getLast hne
  have hsum2 : (((burstChunksF 1024 data.length rs data).dropLast.map List.length).sum
      + ((burstChunksF 1024 data.length rs data).getLast hne).length) = 5000 := by
    have hc := congrArg (fun l => (l.map List.length).sum) hsplit
    simp only [List.map_append, List.sum_append, List.map_cons, List.map_nil,
      List.sum_cons, List.sum_nil] at hc
    omega
  have hlb : ∀ x ∈ (burstChunksF 1024 data.length rs data).dropLast.map List.length,
      512 ≤ x := by
    intro x hx
    obtain ⟨ch, hch, hchx⟩ := List.mem_map.mp hx
    rw [← hchx]
    exact hdl ch hch
  have hk2 : 512 * ((burstChunksF 1024 data.length rs data).length - 1)
      ≤ ((burstChunksF 1024 data.length rs data).dropLast.map List.length).sum := by
    have := List.card_nsmul_le_sum
      ((burstChunksF 1024 data.length rs data).dropLast.map List.length) 512 hlb
    simpa [smul_eq_mul, List.length_map, List.length_dropLast, Nat.mul_comm] using this
  have hlast : 1 ≤ ((burstChunksF 1024 data.length rs data).getLast hne).length :=
    (hsz _ (List.getLast_mem hne)).1
  refine ⟨by omega, by omega, hflat, hsz, hdl, ?_⟩
  intro ch hch c r padSrc nonceSrc hObfs hStealth hA
  have hmk : mkPayload c ch r padSrc = ch := by
    simp [mkPayload, hObfs, hStealth]
  have hOK : roundTripOK c ch := Or.inr (Or.inr ⟨hObfs, hStealth⟩)
  refine roundTrip_core c ch r padSrc nonceSrc hOK hA ?_ ?_
  · intro
    rw [hmk]
    exact (hsz ch hch).1
  · rw [hmk]
    have := (hsz ch hch).2
    omega

/-- Witness for `burstSplit_amended`: the all-zero 5000-byte write. -/
theorem burstSplit_amended_witness :
    (List.replicate 5000 0).length = 5000
    ∧ (burstChunks 1024 [] (List.replicate 5000 0)).flatten = List.replicate 5000 0 :=
  ⟨by rw [List.length_replicate],
    (burstSplit_amended [] (List.replicate 5000 0) (by rw [List.length_replicate])).2.2.1⟩

/-! ## Session-pool pick (Claim C5) -/

/-- A pool entry as `openReverseStream` (server.go) sees it: whether
`ss.sess.IsClosed()` and the atomic `ss.streams` count. -/
structure PoolEntry where
  closed : Bool
  streams : Int
deriving DecidableEq

instance : Inhabited PoolEntry := ⟨⟨true, 0⟩⟩

/-- `s.sessions[idx]`; the out-of-range default is a closed entry, which
no code path ever selects. -/
def entryAt (ss : List PoolEntry) (i : Nat) : PoolEntry := ss.getD i ⟨true, 0⟩

/-- Whether the round-robin loop of `openReverseStream` accepts index `i`:
not closed and `active < maxStreams`. -/
def qualIdx (ss : List PoolEntry) (maxStreams : Int) (i : Nat) : Bool :=
  !(entryAt ss i).closed && decide ((entryAt ss i).streams < maxStreams)

/-- The `for i := 0; i < n; i++` scan of `openReverseStream` (server.go):
probe `(startIdx + i) % n`, skip closed or full entries, stop at the first
qualifying index.  `k` is the remaining iteration count. -/
def scanRR (ss : List PoolEntry) (maxStreams : Int) : Nat → Nat → Option Nat
  | _, 0 => none
  | pos, k + 1 =>
    if qualIdx ss maxStreams (pos % ss.length) then some (pos % ss.length)
    else scanRR ss maxStreams (pos + 1) k

/-- The loop of `leastLoadedSession` (server.go): fold over the pool keeping
the first strict improvement on `bestLoad` among non-closed entries. -/
def leastLoadedAux : List PoolEntry → Nat → Option Nat → Int → Option Nat
  | [], _, best, _ => best
  | e :: rest, i, best, bestLoad =>
    if e.closed then leastLoadedAux rest (i + 1) best bestLoad
    else
      if e.streams < bestLoad then leastLoadedAux rest (i + 1) (some i) e.streams
      else leastLoadedAux rest (i + 1) best bestLoad

/-- `leastLoadedSession` (server.go): `bestLoad` starts at `1<<63 - 1`. -/
def leastLoadedSession (ss : List PoolEntry) : Option Nat :=
  leastLoadedAux ss 0 none (2 ^ 63 - 1)

/-- The pick performed by `openReverseStream` (server.go): empty pool fails;
otherwise round-robin from `(cursor+1) % n` (the incremented atomic cursor),
falling back to `leastLoadedSession`; `none` is the "no sessions" /
"all sessions full" error, in which case no substream is opened. -/
def openReverseStreamPick (ss : List PoolEntry) (maxStreams : Int) (cursor : Nat) :
    Option Nat :=
  if ss.length = 0 then none
  else
    match scanRR ss maxStreams ((cursor + 1) % ss.length) ss.length with
    | some i => some i
    | none => leastLoadedSession ss

lemma scanRR_none (ss : List PoolEntry) (maxStreams : Int) :
    ∀ (k pos : Nat), scanRR ss maxStreams pos k = none →
      ∀ d, d < k → qualIdx ss maxStreams ((pos + d) % ss.length) = false := by
  intro k
  induction k with
  | zero => intro pos _ d hd; omega
  | succ n ih =>
    intro pos h d hd
    simp only [scanRR] at h
    by_cases hq : qualIdx ss maxStreams (pos % ss.length) = true
    · rw [if_pos hq] at h
      exact absurd h (by simp)
    · rw [if_neg hq] at h
      cases d with
      | zero => simpa using hq
      | succ d' =>
        have hrec := ih (pos + 1) h d' (by omega)
        have harith : pos + 1 + d' = pos + (d' + 1) := by omega
        rw [harith] at hrec
        exact hrec

lemma scanRR_some (ss : List PoolEntry) (maxStreams : Int) :
    ∀ (k pos i : Nat), scanRR ss maxStreams pos k = some i →
      ∃ d, d < k ∧ i = (pos + d) % ss.length ∧ qualIdx ss maxStreams i = true ∧
        ∀ d', d' < d → qualIdx ss maxStreams ((pos + d') % ss.length) = false := by
  intro k
  induction k with
  | zero => intro pos i h; exact absurd h (by simp [scanRR])
  | succ n ih =>
    intro pos i h
    simp only [scanRR] at h
    by_cases hq : qualIdx ss maxStreams (pos % ss.length) = true
    · rw [if_pos hq] at h
      have hi : pos % ss.length = i := Option.some.inj h
      refine ⟨0, by omega, ?_, ?_, ?_⟩
      · rw [Nat.add_zero, hi]
      · rw [← hi]; exact hq
      · intro d' hd'; omega
    · rw [if_neg hq] at h
      obtain ⟨d, hd, hi, hqi, hmin⟩ := ih (pos + 1) i h
      refine ⟨d + 1, by omega, ?_, hqi, ?_⟩
      · rw [hi]
        congr 1
        omega
      · intro d' hd'
        cases d' with
        | zero => simpa using hq
        | succ d'' =>
          have hrec := hmin d'' (by omega)
          have harith : pos + 1 + d'' = pos + (d'' + 1) := by omega
          rw [harith] at hrec
          exact hrec

lemma leastLoadedAux_spec :
    ∀ (ss : List PoolEntry) (i : Nat) (best : Option Nat) (bestLoad : Int),
      (leastLoadedAux ss i best bestLoad = best
        ∧ ∀ e ∈ ss, e.closed = true ∨ bestLoad ≤ e.streams)
      ∨ (∃ d, d < ss.length
          ∧ leastLoadedAux ss i best bestLoad = some (i + d)
          ∧ (ss.getD d ⟨true, 0⟩).closed = false
          ∧ (ss.getD d ⟨true, 0⟩).streams < bestLoad
          ∧ ∀ e ∈ ss, e.closed = false → (ss.getD d ⟨true, 0⟩).streams ≤ e.streams) := by
  intro ss
  induction ss with
  | nil =>
    intro i best bestLoad
    left
    exact ⟨rfl, by simp⟩
  | cons e rest ih =>
    intro i best bestLoad
    by_cases hcl : e.closed = true
    · rcases ih (i + 1) best bestLoad with ⟨heq, hall⟩ | ⟨d, hd, heq, hc, hlt, hmin⟩
      · left
        refine ⟨?_, ?_⟩
        · simp only [leastLoadedAux]
          rw [if_pos hcl]
          exact heq
        · intro x hx
          rcases List.mem_cons.mp hx with hx | hx
          · subst hx; exact Or.inl hcl
          · exact hall x hx
      · right
        refine ⟨d + 1, by simpa using hd, ?_, ?_, hlt, ?_⟩
        · simp only [leastLoadedAux]
          rw [if_pos hcl, heq]
          congr 1
          omega
        · rwa [List.getD_cons_succ]
        · rw [List.getD_cons_succ]
          intro x hx hxc
          rcases List.mem_cons.mp hx with hx | hx
          · subst hx
            rw [hcl] at hxc
            exact absurd hxc (by simp)
          · exact hmin x hx hxc
    · have hcl' : e.closed = false := by simpa using hcl
      by_cases hbetter : e.streams < bestLoad
      · rcases ih (i + 1) (some i) e.streams with ⟨heq, hall⟩ | ⟨d, hd, heq, hc, hlt2, hmin⟩
        · right
          refine ⟨0, by simp, ?_, ?_, ?_, ?_⟩
          · simp only [leastLoadedAux]
            rw [if_neg hcl, if_pos hbetter, heq]
            simp
          · simpa using hcl'
          · simpa using hbetter
          · simp only [List.getD_cons_zero]
            intro x hx hxc
            rcases List.mem_cons.mp hx with hx | hx
            · subst hx; exact le_refl _
            · rcases hall x hx with hxcl | hle
              · rw [hxcl] at hxc
                exact absurd hxc (by simp)
              · exact hle
        · right
          refine ⟨d + 1, by simpa using hd, ?_, ?_, ?_, ?_⟩
          · simp only [leastLoadedAux]
            rw [if_neg hcl, if_pos hbetter, heq]
            congr 1
            omega
          · rwa [List.getD_cons_succ]
          · rw [List.getD_cons_succ]
            exact lt_trans hlt2 hbetter
          · rw [List.getD_cons_succ]
            intro x hx hxc
            rcases List.mem_cons.mp hx with hx | hx
            · subst hx
              exact le_of_lt hlt2
            · exact hmin x hx hxc
      · rcases ih (i + 1) best bestLoad with ⟨heq, hall⟩ | ⟨d, hd, heq, hc, hlt2, hmin⟩
        · left
          refine ⟨?_, ?_⟩
          · simp only [leastLoadedAux]
            rw [if_neg hcl, if_neg hbetter]
            exact heq
          · intro x hx
            rcases List.mem_cons.mp hx with hx | hx
            · subst hx; exact Or.inr (not_lt.mp hbetter)
            · exact hall x hx
        · right
          refine ⟨d + 1, by simpa using hd, ?_, ?_, hlt2, ?_⟩
          · simp only [leastLoadedAux]
            rw [if_neg hcl, if_neg hbetter, heq]
            congr 1
            omega
          · rwa [List.getD_cons_succ]
          · rw [List.getD_cons_succ]
            intro x hx hxc
            rcases List.mem_cons.mp hx with hx | hx
            · subst hx
              exact le_trans (le_of_lt hlt2) (not_lt.mp hbetter)
            · exact hmin x hx hxc

lemma entryAt_mem (ss : List PoolEntry) (i : Nat) (h : i < ss.length) :
    entryAt ss i ∈ ss := by
  rw [entryAt, List.getD_eq_getElem ss ⟨true, 0⟩ h]
  exact List.getElem_mem h

lemma qualIdx_lt_length (ss : List PoolEntry) (maxStreams : Int) (i : Nat)
    (h : qualIdx ss maxStreams i = true) : i < ss.length := by
  by_contra hcon
  have : entryAt ss i = ⟨true, 0⟩ := List.getD_eq_default ss ⟨true, 0⟩ (by omega)
  rw [qualIdx, this] at h
  simp at h

/-- Claim C5: `openReverseStream`'s pool pick.  An empty pool fails.  The
scan is round-robin from `(cursor+1) mod N`, skipping closed sessions and
entries at or above `max_streams_per_session`, and returns the first
qualifying entry.  If none qualifies, the pick falls back to the non-closed
entry of minimum active-stream count; if every entry is closed the pick
fails (`none`), and no substream is created.  Any returned index is in
range and not closed.  (`hLoad` bounds real stream counts below the
`1<<63 - 1` sentinel `leastLoadedSession` starts from.) -/
theorem openReverseStream_pick (ss : List PoolEntry) (maxStreams : Int) (cursor : Nat)
    (hLoad : ∀ e ∈ ss, e.streams < 2 ^ 63 - 1) :
    (ss.length = 0 → openReverseStreamPick ss maxStreams cursor = none)
    ∧ (∀ i, openReverseStreamPick ss maxStreams cursor = some i →
        i < ss.length ∧ (entryAt ss i).closed = false)
    ∧ ((∃ d, d < ss.length
          ∧ qualIdx ss maxStreams (((cursor + 1) % ss.length + d) % ss.length) = true) →
        ∃ d, d < ss.length
          ∧ openReverseStreamPick ss maxStreams cursor
              = some (((cursor + 1) % ss.length + d) % ss.length)
          ∧ qualIdx ss maxStreams (((cursor + 1) % ss.length + d) % ss.length) = true
          ∧ ∀ d', d' < d →
              qualIdx ss maxStreams (((cursor + 1) % ss.length + d') % ss.length) = false)
    ∧ ((∀ i, i < ss.length → qualIdx ss maxStreams i = false) →
        (∃ e ∈ ss, e.closed = false) →
        ∃ i, openReverseStreamPick ss maxStreams cursor = some i
          ∧ (entryAt ss i).closed = false
          ∧ ∀ e ∈ ss, e.closed = false → (entryAt ss i).streams ≤ e.streams)
    ∧ ((∀ e ∈ ss, e.closed = true) → openReverseStreamPick ss maxStreams cursor = none) := by
  have hLL := leastLoadedAux_spec ss 0 none (2 ^ 63 - 1)
  by_cases hn : ss.length = 0
  · have hssnil : ss = [] := List.eq_nil_of_length_eq_zero hn
    subst hssnil
    refine ⟨fun _ => rfl, ?_, ?_, ?_, fun _ => rfl⟩
    · intro i hi
      rw [openReverseStreamPick] at hi
      simp at hi
    · intro ⟨d, hd, _⟩
      simp at hd
    · intro _ ⟨e, he, _⟩
      simp at he
  · have hpick : openReverseStreamPick ss maxStreams cursor
        = match scanRR ss maxStreams ((cursor + 1) % ss.length) ss.length with
          | some i => some i
          | none => leastLoadedSession ss := by
      rw [openReverseStreamPick, if_neg hn]
    refine ⟨fun h => absurd h hn, ?_, ?_, ?_, ?_⟩
    · -- any result is in range and non-closed
      intro i hi
      rw [hpick] at hi
      rcases hscan : scanRR ss maxStreams ((cursor + 1) % ss.length) ss.length with _ | j
      · rw [hscan] at hi
        rcases hLL with ⟨heq, _⟩ | ⟨d, hd, heq, hc, _, _⟩
        · rw [leastLoadedSession, heq] at hi
          exact absurd hi (by simp)
        · rw [leastLoadedSession, heq] at hi
          have hid : i = d := by
            have := Option.some.inj hi
            omega
          subst hid
          exact ⟨hd, by rwa [entryAt]⟩
      · rw [hscan] at hi
        have hij : j = i := Option.some.inj hi
        subst hij
        obtain ⟨d, hd, hjd, hq, _⟩ :=
          scanRR_some ss maxStreams ss.length ((cursor + 1) % ss.length) j hscan
        refine ⟨qualIdx_lt_length ss maxStreams j hq, ?_⟩
        rw [qualIdx] at hq
        simp only [Bool.and_eq_true, Bool.not_eq_eq_eq_not, Bool.not_true] at hq
        exact hq.1
    · -- some entry qualifies: the round-robin-first one is picked
      intro ⟨d0, hd0, hq0⟩
      rcases hscan : scanRR ss maxStreams ((cursor + 1) % ss.length) ss.length with _ | j
      · have := scanRR_none ss maxStreams ss.length ((cursor + 1) % ss.length) hscan d0 hd0
        rw [this] at hq0
        exact absurd hq0 (by simp)
      · obtain ⟨d, hd, hjd, hq, hmin⟩ :=
          scanRR_some ss maxStreams ss.length ((cursor + 1) % ss.length) j hscan
        refine ⟨d, hd, ?_, by rwa [← hjd], fun d' hd' => hmin d' hd'⟩
        rw [hpick, hscan, hjd]
    · -- nothing qualifies but a live session exists: least-loaded fallback
      intro hnoq ⟨e0, he0, hc0⟩
      have hscan : scanRR ss maxStreams ((cursor + 1) % ss.length) ss.length = none := by
        rcases hs : scanRR ss maxStreams ((cursor + 1) % ss.length) ss.length with _ | j
        · rfl
        · obtain ⟨d, hd, hjd, hq, _⟩ :=
            scanRR_some ss maxStreams ss.length ((cursor + 1) % ss.length) j hs
          have := hnoq j (qualIdx_lt_length ss maxStreams j hq)
          rw [this] at hq
          exact absurd hq (by simp)
      rcases hLL with ⟨_, hall⟩ | ⟨d, hd, heq, hc, _, hmin⟩
      · rcases hall e0 he0 with hcl | hge
        · rw [hcl] at hc0
          exact absurd hc0 (by simp)
        · have := hLoad e0 he0
          omega
      · refine ⟨d, ?_, by rwa [entryAt], ?_⟩
        · rw [hpick, hscan, leastLoadedSession, heq]
          norm_num
        · intro x hx hxc
          have := hmin x hx hxc
          rwa [entryAt]
    · -- every session closed: the pick fails
      intro hallcl
      rw [hpick]
      have hscan : scanRR ss maxStreams ((cursor + 1) % ss.length) ss.length = none := by
        rcases hs : scanRR ss maxStreams ((cursor + 1) % ss.length) ss.length with _ | j
        · rfl
        · obtain ⟨d, hd, hjd, hq, _⟩ :=
            scanRR_some ss maxStreams ss.length ((cursor + 1) % ss.length) j hs
          have hjlt := qualIdx_lt_length ss maxStreams j hq
          rw [qualIdx] at hq
          simp only [Bool.and_eq_true, Bool.not_eq_eq_eq_not, Bool.not_true] at hq
          have := hallcl (entryAt ss j) (entryAt_mem ss j hjlt)
          rw [this] at hq
          exact absurd hq.1 (by simp)
      rw [hscan]
      rcases hLL with ⟨heq, _⟩ | ⟨d, hd, _, hc, _, _⟩
      · rw [leastLoadedSession, heq]
      · have hthis := hallcl (entryAt ss d) (entryAt_mem ss d hd)
        rw [entryAt] at hthis
        rw [hthis] at hc
        exact absurd hc (by simp)

/-- Witness for `openReverseStream_pick`: a two-entry pool whose second
entry is closed; the pick lands on the open first entry. -/
theorem openReverseStream_pick_witness :
    0 < ([⟨false, 3⟩, ⟨true, 0⟩] : List PoolEntry).length
    ∧ (entryAt [⟨false, 3⟩, ⟨true, 0⟩] 0).closed = false :=
  (openReverseStream_pick [⟨false, 3⟩, ⟨true, 0⟩] 5 0 (by decide)).2.1 0 (by decide)

/-! ## Post-handshake byte preservation (Claim C7) -/

/-- `bufferedConn` (tls_fragment.go): the raw socket plus the `bufio.Reader`
wrapped around it by the handshake.  `buffered` is what the reader already
consumed past the HTTP response; `raw` the bytes still on the socket. -/
structure BufferedConn where
  buffered : List Nat
  raw : List Nat
deriving DecidableEq

/-- `bufferedConn.Read` (tls_fragment.go) delegates to the `bufio.Reader`:
a read is served from the buffer whenever it is non-empty and touches the
raw socket only once the buffer is drained (the `bufio.Reader.Read`
contract). -/
def bufferedConnRead (c : BufferedConn) (n : Nat) : List Nat × BufferedConn :=
  if c.buffered.isEmpty then (c.raw.take n, ⟨[], c.raw.drop n⟩)
  else (c.buffered.take n, ⟨c.buffered.drop n, c.raw⟩)

/-- Every byte the wrapped connection will deliver, in order. -/
def drainConn (c : BufferedConn) : List Nat := c.buffered ++ c.raw

/-- The tail of `ClientHandshakeWithStealth` (tls_fragment.go) after
`http.ReadResponse` on the buffered reader: any status other than 101 or
200 is an error with no connection; otherwise the returned wrapper is
`bufferedConn{Conn: conn, r: br}`, whose reads serve the bufio leftover
before the raw socket. -/
def clientHandshakeWrap (status : Nat) (leftover raw : List Nat) : Option BufferedConn :=
  if status ≠ 101 ∧ status ≠ 200 then none
  else some ⟨leftover, raw⟩

/-- Claim C7: after a successful origin-side handshake (status 101 or 200;
anything else errors with no connection), the bytes the buffered HTTP
reader consumed beyond the response headers come back as the first bytes
of subsequent reads on the wrapped connection, before any raw-socket
bytes. -/
theorem clientHandshakeBufferPreserved (status : Nat) (leftover raw : List Nat) :
    ((status = 101 ∨ status = 200) →
      clientHandshakeWrap status leftover raw = some ⟨leftover, raw⟩
      ∧ (∀ n, leftover ≠ [] → (bufferedConnRead ⟨leftover, raw⟩ n).1 = leftover.take n)
      ∧ drainConn ⟨leftover, raw⟩ = leftover ++ raw)
    ∧ (status ≠ 101 → status ≠ 200 → clientHandshakeWrap status leftover raw = none)
    ∧ (∀ (bc : BufferedConn) (n : Nat),
        (bufferedConnRead bc n).1 ++ drainConn (bufferedConnRead bc n).2 = drainConn bc) := by
  refine ⟨?_, ?_, ?_⟩
  · intro h
    refine ⟨?_, ?_, rfl⟩
    · rw [clientHandshakeWrap, if_neg (by tauto)]
    · intro n hne
      rw [bufferedConnRead, if_neg (by simpa using hne)]
  · intro h1 h2
    rw [clientHandshakeWrap, if_pos ⟨h1, h2⟩]
  · intro bc n
    rw [bufferedConnRead]
    by_cases hb : bc.buffered.isEmpty
    · have hb' : bc.buffered = [] := by simpa using hb
      rw [if_pos hb]
      simp only [drainConn, hb', List.nil_append]
      rw [List.take_append_drop]
    · rw [if_neg hb]
      simp only [drainConn]
      rw [← List.append_assoc, List.take_append_drop]

/-- Witness for `clientHandshakeBufferPreserved`: status 101 with two
leftover bytes. -/
theorem clientHandshakeBufferPreserved_witness :
    clientHandshakeWrap 101 [1, 2] [3] = some ⟨[1, 2], [3]⟩
    ∧ drainConn ⟨[1, 2], [3]⟩ = [1, 2, 3] := by
  obtain ⟨h1, _, h3⟩ := (clientHandshakeBufferPreserved 101 [1, 2] [3]).1 (Or.inl rfl)
  exact ⟨h1, h3⟩

/-! ## Stream-counter balance (Claim C10) -/

/-- An operation on a session's atomic `streams` counter. -/
inductive COp
  | inc
  | dec
deriving DecidableEq

/-- The counter value after a trace of operations, starting from zero. -/
def netOps (t : List COp) : Int :=
  t.foldl (fun a o => match o with | COp.inc => a + 1 | COp.dec => a - 1) 0

/-- Executable check that no prefix of a trace drives the counter negative. -/
def prefixOk (t : List COp) : Bool :=
  (List.range (t.length + 1)).all fun k => decide (0 ≤ netOps (t.take k))

lemma prefixOk_spec (t : List COp) (h : prefixOk t = true) :
    ∀ k, 0 ≤ netOps (t.take k) := by
  intro k
  by_cases hk : k ≤ t.length
  · have h2 := List.all_eq_true.mp h k (List.mem_range.mpr (by omega))
    simpa using h2
  · rw [List.take_of_length_le (by omega)]
    have h2 := List.all_eq_true.mp h t.length (List.mem_range.mpr (by omega))
    simp only [decide_eq_true_eq, List.take_length] at h2
    exact h2

/-- Counter operations along `handleStream` (server.go): increment on entry
(line 225), matched by the deferred decrement on every exit path. -/
def handleStreamTrace : List COp := [COp.inc, COp.dec]

/-- Counter operations of `openReverseStream` (server.go), per branch:
`openOk` is `sess.OpenStream()` succeeding, `tagOk`/`hdrOk` the tag and
target-header writes.  The Bool says whether a stream is handed to the
caller, i.e. the counter is intentionally left at +1 for the caller's
termination path to release. -/
def openReverseStreamTrace (openOk tagOk hdrOk : Bool) : List COp × Bool :=
  if !openOk then ([], false)
  else if !tagOk then ([COp.inc, COp.dec], false)
  else if !hdrOk then ([COp.inc, COp.dec], false)
  else ([COp.inc], true)

/-- `handleReverseTCPConn` (server.go): `openReverseStream`, then the
deferred decrement once the relay finishes. -/
def handleReverseTCPConnTrace (openOk tagOk hdrOk : Bool) : List COp :=
  (openReverseStreamTrace openOk tagOk hdrOk).1
    ++ (if (openReverseStreamTrace openOk tagOk hdrOk).2 then [COp.dec] else [])

/-- One UDP flow of `startReverseUDP` (server.go): `openReverseStream` on
the first packet, then the reader goroutine's deferred decrement on exit. -/
def udpFlowTrace (openOk tagOk hdrOk : Bool) : List COp :=
  (openReverseStreamTrace openOk tagOk hdrOk).1
    ++ (if (openReverseStreamTrace openOk tagOk hdrOk).2 then [COp.dec] else [])

/-- Claim C10: every increment of the per-session stream counter is matched
by exactly one decrement on each termination path — the accepted-stream
path, every failure branch inside `openReverseStream`, the TCP relay
completion, and the UDP reader exit — so each completed path nets to zero,
no prefix of any path drives the counter negative, and a successful open
leaves exactly +1 for its caller. -/
theorem streamCounterBalance (openOk tagOk hdrOk : Bool) :
    (netOps handleStreamTrace = 0 ∧ ∀ k, 0 ≤ netOps (handleStreamTrace.take k))
    ∧ (netOps (handleReverseTCPConnTrace openOk tagOk hdrOk) = 0
        ∧ ∀ k, 0 ≤ netOps ((handleReverseTCPConnTrace openOk tagOk hdrOk).take k))
    ∧ (netOps (udpFlowTrace openOk tagOk hdrOk) = 0
        ∧ ∀ k, 0 ≤ netOps ((udpFlowTrace openOk tagOk hdrOk).take k))
    ∧ netOps (openReverseStreamTrace openOk tagOk hdrOk).1
        = (if (openReverseStreamTrace openOk tagOk hdrOk).2 then 1 else 0) := by
  cases openOk <;> cases tagOk <;> cases hdrOk <;>
    exact ⟨⟨by decide, prefixOk_spec _ (by decide)⟩,
      ⟨by decide, prefixOk_spec _ (by decide)⟩,
      ⟨by decide, prefixOk_spec _ (by decide)⟩, by decide⟩

/-! ## Decoy uniformity (Claim C8) -/

/-- `MimicConfig` — the fields `validateRequest` and the path mux consume.
Strings are `List Char`. -/
structure MimicConfig where
  fakeDomain : List Char
  fakePath : List Char
deriving DecidableEq

/-- `mimicPath` (server.go): the configured fake path, defaulting to
`"/search"`. -/
def mimicPath (m : Option MimicConfig) : List Char :=
  match m with
  | some c => if c.fakePath ≠ [] then c.fakePath else "/search".toList
  | none => "/search".toList

/-- `strings.Split(tunnelPath, "\x7b")[0]` (listenOnPort, server.go): the
prefix registered on the HTTP mux for the tunnel handler. -/
def tunnelPathPrefix (m : Option MimicConfig) : List Char :=
  (mimicPath m).takeWhile fun ch => ch ≠ Char.ofNat 123

/-- `net/http.ServeMux` dispatch for one registered pattern: a pattern
ending in `/` matches the whole subtree, otherwise only the exact path
(the `"/"` catch-all goes to the decoy handler). -/
def pathMatches (pat path : List Char) : Bool :=
  if pat.getLast? = some '/' then pat.isPrefixOf path else path == pat

/-- ASCII lower-casing of `strings.ToLower` on header tokens. -/
def lowerChar (ch : Char) : Char :=
  if 65 ≤ ch.toNat ∧ ch.toNat ≤ 90 then Char.ofNat (ch.toNat + 32) else ch

def toLowerChars (s : List Char) : List Char := s.map lowerChar

/-- `strings.Contains hay needle`: `needle` occurs as a contiguous
substring of `hay` (an empty needle always matches). -/
def strContains (hay needle : List Char) : Bool :=
  match hay with
  | [] => needle.isEmpty
  | c :: t => needle.isPrefixOf (c :: t) || strContains t needle

/-- `net.SplitHostPort` as `validateRequest` uses it: strip the port from
the common `host:port` form; any other shape (no colon, several colons) is
an error and the host is used as given.  Bracketed IPv6 literals are not
modelled. -/
def splitHostPortChars (h : List Char) : Option (List Char) :=
  if h.count ':' = 1 then some (h.takeWhile fun ch => ch ≠ ':') else none

def isDigitChar (ch : Char) : Bool := 48 ≤ ch.toNat && ch.toNat ≤ 57

/-- Split on a separator character (for dotted-quad parsing). -/
def splitOnChar (sep : Char) (l : List Char) : List (List Char) :=
  l.foldr (fun ch acc =>
    match acc with
    | [] => [[ch]]
    | h :: t => if ch = sep then [] :: h :: t else (ch :: h) :: t) [[]]

def charsToNat (p : List Char) : Nat := p.foldl (fun a ch => a * 10 + (ch.toNat - 48)) 0

/-- `net.ParseIP(host) != nil`, modelled on the shapes the validator cares
about: a dotted quad of 1–3 digit components ≤ 255, or any colon-bearing
(IPv6-style) literal. -/
def isIPLiteral (h : List Char) : Bool :=
  h.contains ':'
    || (decide ((splitOnChar '.' h).length = 4)
        && (splitOnChar '.' h).all fun p =>
            decide (p ≠ []) && decide (p.length ≤ 3) && p.all isDigitChar
              && decide (charsToNat p ≤ 255))

/-- The host check of `validateRequest` (server.go): with a configured fake
domain, reject unless the (port-stripped) host equals the domain, is a
subdomain of it, or is an IP literal. -/
def hostReject (m : Option MimicConfig) (rhost : List Char) : Bool :=
  match m with
  | none => false
  | some mc =>
    if mc.fakeDomain = [] then false
    else
      let host := (splitHostPortChars rhost).getD rhost
      if host == mc.fakeDomain || ('.' :: mc.fakeDomain).isSuffixOf host then false
      else !isIPLiteral host

/-- One HTTP request as the edge validator sees it. -/
structure HTTPRequest where
  method : List Char
  host : List Char
  upgradeHdr : List Char
  connectionHdr : List Char
  path : List Char
deriving DecidableEq

/-- `validateRequest` (server.go): GET only, then the host check, then the
`Upgrade: websocket` / `Connection: upgrade` token check. -/
def validateRequest (m : Option MimicConfig) (r : HTTPRequest) : Bool :=
  if r.method ≠ "GET".toList then false
  else if hostReject m r.host then false
  else
    strContains (toLowerChars r.upgradeHdr) "websocket".toList
      && strContains (toLowerChars r.connectionHdr) "upgrade".toList

/-- An HTTP response: status, the headers the handler sets, and the body. -/
structure HTTPResponse where
  status : Nat
  headers : List (List Char × List Char)
  body : List Char
deriving DecidableEq

/-- `writeDecoy` (server.go): the one fixed 404 decoy every rejection path
emits. -/
def decoyResponse : HTTPResponse :=
  ⟨404,
   [("Server".toList, "nginx/1.24.0".toList), ("Content-Type".toList, "text/html".toList)],
   ("<!DOCTYPE html><html><head><title>404 Not Found</title></head><body><center><h1>404 Not Found</h1></center><hr><center>nginx/1.24.0</center></body></html>").toList⟩

/-- The 101 Switching Protocols response of `handleTunnel` (server.go). -/
def upgradeResponse : HTTPResponse :=
  ⟨101,
   [("Upgrade".toList, "websocket".toList), ("Connection".toList, "Upgrade".toList),
    ("Sec-WebSocket-Accept".toList, "s3pPLMBiTxaQ9kYGzzhZRbK+xOo=".toList)],
   []⟩

/-- Whether a request reaches the tunnel upgrade: routed to the tunnel
prefix by the mux and accepted by `validateRequest`. -/
def edgeAccept (m : Option MimicConfig) (r : HTTPRequest) : Bool :=
  pathMatches (tunnelPathPrefix m) r.path && validateRequest m r

/-- The pool-and-response effect of one edge HTTP request: an accepted
request is hijacked, answered 101 and its session appended to the pool
(`addSession`, server.go); a rejected one gets the decoy and the pool is
untouched. -/
def edgeStep (m : Option MimicConfig) (pool : List Nat) (r : HTTPRequest)
    (newSess : Nat) : List Nat × HTTPResponse :=
  if edgeAccept m r then (pool ++ [newSess], upgradeResponse)
  else (pool, decoyResponse)

/-- Claim C8: every rejected request on the edge tunnel port — wrong host,
not a websocket upgrade, non-GET method, or unknown path — receives the
identical 404 decoy with `Server: nginx/1.24.0`, and the session pool is
unchanged by the rejection. -/
theorem decoyUniformity (m : Option MimicConfig) (pool : List Nat) (r r' : HTTPRequest)
    (ns ns' : Nat) :
    (edgeAccept m r = false → edgeStep m pool r ns = (pool, decoyResponse))
    ∧ (edgeAccept m r = false → edgeAccept m r' = false →
        (edgeStep m pool r ns).2 = (edgeStep m pool r' ns').2)
    ∧ decoyResponse.status = 404
    ∧ decoyResponse.headers
        = [("Server".toList, "nginx/1.24.0".toList),
           ("Content-Type".toList, "text/html".toList)]
    ∧ (r.method ≠ "GET".toList → validateRequest m r = false)
    ∧ (strContains (toLowerChars r.upgradeHdr) "websocket".toList = false →
        validateRequest m r = false)
    ∧ (pathMatches (tunnelPathPrefix m) r.path = false →
        edgeStep m pool r ns = (pool, decoyResponse))
    ∧ (validateRequest m r = false → edgeStep m pool r ns = (pool, decoyResponse)) := by
  refine ⟨?_, ?_, rfl, rfl, ?_, ?_, ?_, ?_⟩
  · intro h
    rw [edgeStep, if_neg (by simp [h])]
  · intro h h'
    rw [edgeStep, if_neg (by simp [h]), edgeStep, if_neg (by simp [h'])]
  · intro h
    rw [validateRequest, if_pos h]
  · intro h
    rw [validateRequest]
    by_cases h1 : r.method ≠ "GET".toList
    · rw [if_pos h1]
    · rw [if_neg h1]
      by_cases h2 : hostReject m r.host = true
      · rw [if_pos h2]
      · rw [if_neg h2, h]
        rfl
  · intro h
    rw [edgeStep, if_neg (by simp [edgeAccept, h])]
  · intro h
    rw [edgeStep, if_neg (by simp [edgeAccept, h])]

/-- Witness for `decoyUniformity`: scenario S3 — fake domain
`example.com`, a GET for `/` with `Host: attacker.local` and no upgrade
headers is rejected with the decoy and the (empty) pool is unchanged. -/
theorem decoyUniformity_witness :
    edgeStep (some ⟨"example.com".toList, []⟩) []
      ⟨"GET".toList, "attacker.local".toList, [], [], "/".toList⟩ 0
      = ([], decoyResponse) :=
  (decoyUniformity (some ⟨"example.com".toList, []⟩) []
      ⟨"GET".toList, "attacker.local".toList, [], [], "/".toList⟩
      ⟨"GET".toList, "attacker.local".toList, [], [], "/".toList⟩ 0 0).1
    (by decide)

end PicoTun
